import Mathlib

/-!
Verification of the note-name-to-pitch resolver and chord-to-event sequencer
of the Chord-Progression-Maker repository.

The resolver `note_to_midi` (identical in src/main.py lines 5-62 and
src/chord_generator.py lines 13-68) is modelled over `List Char`.  Python's
`str.strip` / `int()` are modelled on ASCII tokens (`pyStrip`, `pyInt`);
Python's float arithmetic for the tick computation is modelled with exact
rationals, with `int()`'s truncation toward zero as `pyTrunc`.

The sequencer `create_midi` appears twice in the repository:
  * src/main.py lines 64-99: builds a fresh local MidiFile, so the only
    observable output is the finished track (modelled as `create_midi`,
    returning `Except Err (List Msg)`);
  * src/chord_generator.py lines 70-103: appends its (possibly partial)
    track to the module-level global `WORKING_MIDI` (lines 9-11), modelled
    as `create_midi_cg`, an explicit state-passing function on the list of
    tracks accumulated so far.
Both share the per-track message computation (`processChords`), since the
loop bodies are identical.  `mido.Message` validates the `note` data byte
(0..127) at construction time; this is `midoNote`.  `mido.MetaMessage`
likewise validates the `set_tempo` value into 0..0xFFFFFF when the tempo
message is constructed (`Err.tempoRange`), before the tempo division is
reached.  `MidiFile()` has `ticks_per_beat = 480` by default, which both
scripts use unchanged.  main.py's `create_midi` ends by saving the file, and
saving requires every delta time to be non-negative; the success statements
below are therefore stated for non-negative durations, where all delta times
of the produced track are non-negative and the model's `.ok` coincides with
the program's successful completion.
-/

set_option maxHeartbeats 1000000

deriving instance DecidableEq for Except

/-- Whitespace characters removed by Python's `str.strip` (ASCII range). -/
def isSpace (c : Char) : Bool :=
  c.toNat == 32 || c.toNat == 9 || c.toNat == 10 || c.toNat == 13 ||
    c.toNat == 11 || c.toNat == 12

/-- Python `str.strip`: drop leading and trailing whitespace. -/
def pyStrip (l : List Char) : List Char :=
  ((l.dropWhile isSpace).reverse.dropWhile isSpace).reverse

/-- Value of an ASCII decimal digit character, if it is one. -/
def digitVal (c : Char) : Option Nat :=
  if 48 ≤ c.toNat ∧ c.toNat ≤ 57 then some (c.toNat - 48) else none

/-- Digit values of a string of characters, if all are decimal digits. -/
def digitVals : List Char → Option (List Nat)
  | [] => some []
  | c :: t =>
    match digitVal c with
    | none => none
    | some d =>
      match digitVals t with
      | none => none
      | some ds => some (d :: ds)

/-- Parse a nonempty big-endian digit string to a natural number. -/
def parseDigits (l : List Char) : Option Nat :=
  match digitVals l with
  | some ds => if ds = [] then none else some (Nat.ofDigits 10 ds.reverse)
  | none => none

/-- Sign-and-digits part of Python `int()`, applied after stripping. -/
def pyIntTail : List Char → Option Int
  | [] => none
  | c :: rest =>
    if c = '-' then (parseDigits rest).map fun n : Nat => -(n : Int)
    else if c = '+' then (parseDigits rest).map fun n : Nat => (n : Int)
    else (parseDigits (c :: rest)).map fun n : Nat => (n : Int)

/-- Python `int()` applied to a string: surrounding whitespace is ignored,
then an optional sign followed by decimal digits.  (Underscore separators and
non-ASCII digits, which Python also accepts, are not modelled; no input in
the repository or the claims uses them.) -/
def pyInt (l : List Char) : Option Int := pyIntTail (pyStrip l)

/-- Decimal digit character for a value below 10. -/
def digitChar (d : Nat) : Char := Char.ofNat (48 + d)

/-- Decimal rendering of a natural number (as Python `str`). -/
def natStr (n : Nat) : List Char :=
  if n = 0 then ['0'] else ((Nat.digits 10 n).map digitChar).reverse

/-- Decimal rendering of an integer (as Python `str`). -/
def intStr (o : Int) : List Char :=
  if o < 0 then '-' :: natStr o.natAbs else natStr o.toNat

/-- Failure cases of the modelled code.  The first three are the three
`raise ValueError` sites inside `note_to_midi`; `noteRange` is mido's
data-byte validation when a `Message` is built with a note outside 0..127;
`tempoRange` is mido's set_tempo data validation when the tempo
meta-message is built with a tempo outside 0..16777215 (0xFFFFFF);
`zeroDivision` is Python's ZeroDivisionError when `create_midi` divides by a
zero tempo. -/
inductive Err where
  | invalidNote
  | invalidOctave
  | invalidLetter
  | noteRange
  | tempoRange
  | zeroDivision
  deriving DecidableEq, Repr

/-- The `note_base` dictionary of `note_to_midi` (src/main.py lines 30-43):
base semitone values with C = 0 and sharps included directly. -/
def note_base (key : List Char) : Option Int :=
  match key with
  | ['C'] => some 0
  | ['C', '#'] => some 1
  | ['D'] => some 2
  | ['D', '#'] => some 3
  | ['E'] => some 4
  | ['F'] => some 5
  | ['F', '#'] => some 6
  | ['G'] => some 7
  | ['G', '#'] => some 8
  | ['A'] => some 9
  | ['A', '#'] => some 10
  | ['B'] => some 11
  | _ => none

/-- Python's `len(note) >= 3 and note[1] in ['#', 'b']` test, applied to the
second character `c1` and the remaining characters `rest` of the stripped
token. -/
def hasAcc (c1 : Char) (rest : List Char) : Bool :=
  !rest.isEmpty && (c1 == '#' || c1 == 'b')

/-- The octave substring of a stripped token `c0 :: c1 :: rest`: `note[2:]`
when the accidental test fires, otherwise `note[1:]`. -/
def octaveSub (c1 : Char) (rest : List Char) : List Char :=
  if hasAcc c1 rest then rest else c1 :: rest

/-- Body of the pitch resolver, applied to the already-stripped token; a
length below 2 is rejected; the first character is upper-cased; `#`/`b` in
second position (with at least one character after) is the accidental; the
rest must parse as an integer octave.  Flats use `(natural - 1) % 12` on the
sharps-only table; everything else is a direct table lookup of
letter+accidental.  Result: `12 * (octave + 1) + base`. -/
def resolveStripped : List Char → Except Err Int
  | c0 :: c1 :: rest =>
    let letter := c0.toUpper
    let accidental : List Char := if hasAcc c1 rest then [c1] else []
    match pyInt (octaveSub c1 rest) with
    | none => .error .invalidOctave
    | some octave =>
      if accidental = ['b'] then
        match note_base [letter] with
        | none => .error .invalidLetter
        | some nv => .ok (12 * (octave + 1) + (nv - 1) % 12)
      else
        match note_base (letter :: accidental) with
        | none => .error .invalidNote
        | some bv => .ok (12 * (octave + 1) + bv)
  | _ => .error .invalidNote

/-- Pitch resolver `note_to_midi` (src/main.py lines 5-62; the copy in
src/chord_generator.py lines 13-68 is character-for-character identical):
strip the token, then resolve. -/
def note_to_midi (s : List Char) : Except Err Int :=
  resolveStripped (pyStrip s)

/-- Messages appended to a track by `create_midi`.  `time` is the mido delta
time; the tempo meta-message is appended with `time=0`. -/
inductive Msg where
  | setTempo (tempo : Int)
  | noteOn (note : Int) (velocity : Nat) (time : Int)
  | noteOff (note : Int) (velocity : Nat) (time : Int)
  deriving DecidableEq, Repr

/-- Delta time carried by a message (the tempo meta-message has time 0). -/
def timeOf : Msg → Int
  | .setTempo _ => 0
  | .noteOn _ _ t => t
  | .noteOff _ _ t => t

/-- Resolve one note token and build its message data, including mido's
validation that the `note` data byte lies in 0..127. -/
def midoNote (n : List Char) : Except Err Int :=
  match note_to_midi n with
  | .error e => .error e
  | .ok m => if 0 ≤ m ∧ m ≤ 127 then .ok m else .error .noteRange

/-- The note-on loop of `create_midi` (src/main.py lines 88-90): resolve each
note in turn, appending `note_on(note, velocity=64, time=0)`; a failure
aborts, leaving the messages appended so far. -/
def appendOns (t : List Msg) : List (List Char) → List Msg × Option Err
  | [] => (t, none)
  | n :: c =>
    match midoNote n with
    | .error e => (t, some e)
    | .ok m => appendOns (t ++ [Msg.noteOn m 64 0]) c

/-- The note-off loop of `create_midi` (src/main.py lines 94-96): resolve each
note again, appending `note_off(note, velocity=64, time=0)`. -/
def appendOffs (t : List Msg) : List (List Char) → List Msg × Option Err
  | [] => (t, none)
  | n :: c =>
    match midoNote n with
    | .error e => (t, some e)
    | .ok m => appendOffs (t ++ [Msg.noteOff m 64 0]) c

/-- The chord loop of `create_midi` (src/main.py lines 86-96): for each chord,
all note-ons, then the waiting `note_off(note=0, velocity=0, time=ticks)`
message, then all note-offs.  The accumulated track and the first error (if
any) are returned; the track keeps everything appended before a failure. -/
def processChords (ticks : Int) (t : List Msg) :
    List (List (List Char)) → List Msg × Option Err
  | [] => (t, none)
  | c :: cs =>
    match appendOns t c with
    | (t1, some e) => (t1, some e)
    | (t1, none) =>
      match appendOffs (t1 ++ [Msg.noteOff 0 0 ticks]) c with
      | (t2, some e) => (t2, some e)
      | (t2, none) => processChords ticks t2 cs

/-- Python `int()` applied to a float/rational value: truncation toward
zero. -/
def pyTrunc (q : ℚ) : Int :=
  if 0 ≤ q then ⌊q⌋ else -⌊-q⌋

/-- The tick computation of `create_midi` (src/main.py lines 80-84):
`beats_per_chord = chord_duration / (tempo / 1e6)` and
`ticks_per_chord = int(beats_per_chord * ticks_per_beat)`, with the float
arithmetic idealized over ℚ. -/
def ticksPerChord (ticks_per_beat : Nat) (chord_duration : ℚ) (tempo : Int) : Int :=
  pyTrunc (chord_duration / ((tempo : ℚ) / 1000000) * ticks_per_beat)

/-- `create_midi` of src/main.py lines 64-99.  A fresh `MidiFile` is used
(`ticks_per_beat` 480), so the observable result is the finished track,
saved only when no exception occurred: a raised exception means no output.
The `MetaMessage('set_tempo', tempo=tempo)` construction at line 77 range
checks the tempo into 0..16777215 and raises ValueError otherwise; after
that, a zero tempo raises ZeroDivisionError at the
`chord_duration / (tempo / 1e6)` division, before the chord loop. -/
def create_midi (chords : List (List (List Char))) (chord_duration : ℚ)
    (tempo : Int) : Except Err (List Msg) :=
  if tempo < 0 ∨ 16777215 < tempo then .error .tempoRange
  else if tempo = 0 then .error .zeroDivision
  else
    match processChords (ticksPerChord 480 chord_duration tempo)
        [Msg.setTempo tempo] chords with
    | (_, some e) => .error e
    | (t, none) => .ok t

/-- `create_midi` of src/chord_generator.py lines 70-103.  The fresh track is
appended to the module-level `WORKING_MIDI.tracks` (line 82) before any note
is processed, and messages are appended to it in place, so the global state
keeps the partially filled track even when a note fails; the exception (if
any) propagates to the caller.  `tracks` is the state of
`WORKING_MIDI.tracks` before the call; the pair holds the state after the
call and the propagated error.  A tempo outside mido's set_tempo range
0..16777215 raises ValueError at the `MetaMessage` construction (line 85),
so the freshly appended track stays empty; a zero tempo passes that check
and raises ZeroDivisionError at the division (line 90) with only the tempo
message appended. -/
def create_midi_cg (chords : List (List (List Char))) (chord_duration : ℚ)
    (tempo : Int) (tracks : List (List Msg)) : List (List Msg) × Option Err :=
  if tempo < 0 ∨ 16777215 < tempo then (tracks ++ [[]], some .tempoRange)
  else if tempo = 0 then (tracks ++ [[Msg.setTempo tempo]], some .zeroDivision)
  else
    let r := processChords (ticksPerChord 480 chord_duration tempo)
      [Msg.setTempo tempo] chords
    (tracks ++ [r.1], r.2)

/-- Map a fallible function over a list, failing on the first error (used to
state hypotheses that every note of every chord resolves). -/
def mapExcept {α β : Type} (f : α → Except Err β) : List α → Except Err (List β)
  | [] => .ok []
  | a :: l =>
    match f a with
    | .error e => .error e
    | .ok b =>
      match mapExcept f l with
      | .error e => .error e
      | .ok bs => .ok (b :: bs)

/-- Note-on messages of one chord whose notes resolved to `ms`. -/
def onMsgs (ms : List Int) : List Msg := ms.map fun m => Msg.noteOn m 64 0

/-- Note-off messages of one chord whose notes resolved to `ms`. -/
def offMsgs (ms : List Int) : List Msg := ms.map fun m => Msg.noteOff m 64 0

/-- The complete message block of one chord: all note-ons, the waiting
message carrying the chord's tick duration, all note-offs. -/
def chordBlock (ticks : Int) (ms : List Int) : List Msg :=
  onMsgs ms ++ [Msg.noteOff 0 0 ticks] ++ offMsgs ms

/-- A pitched (note-carrying) event: any `note_on`, and any `note_off` with
nonzero velocity.  The waiting message is the only `note_off` the code emits
with velocity 0, and chord note-offs always carry velocity 64. -/
def isPitched : Msg → Bool
  | .noteOn _ _ _ => true
  | .noteOff _ v _ => v != 0
  | .setTempo _ => false

/-- The per-chord duration marker: the `note_off(note=0, velocity=0)` waiting
message. -/
def isMarker : Msg → Bool
  | .noteOff _ 0 _ => true
  | _ => false

/-- Sum of the delta times of a message list: the absolute pulse offset of
whatever follows these messages. -/
def deltaSum (t : List Msg) : Int := (t.map timeOf).sum

/-- Absolute pulse offset at which chord `j` starts, inside a track made of
the tempo message followed by blocks of `2 * k + 1` messages per chord: the
delta times of all messages preceding chord `j`'s first message. -/
def chordStart (track : List Msg) (k j : Nat) : Int :=
  deltaSum (track.take (1 + j * (2 * k + 1)))

/-- Natural-letter semitone offsets as the spec states them (section 4.1:
C=0, D=2, E=4, F=5, G=7, A=9, B=11), for comparison with the code's
`note_base` table. -/
def specNatural (c : Char) : Int :=
  match c with
  | 'C' => 0
  | 'D' => 2
  | 'E' => 4
  | 'F' => 5
  | 'G' => 7
  | 'A' => 9
  | 'B' => 11
  | _ => 0

/-- The valid note letters, both cases (the code upper-cases the first
character before the table lookup). -/
def noteLetters : List Char :=
  ['C', 'D', 'E', 'F', 'G', 'A', 'B', 'c', 'd', 'e', 'f', 'g', 'a', 'b']

/-- An `Except` result that is an error (a raised ValueError in the
source). -/
def isErr {β : Type} : Except Err β → Bool
  | .error _ => true
  | .ok _ => false

/-- A result that is one of the three ValueError raises of `note_to_midi`
(the family the spec's taxonomy labels InvalidNoteFormat: bad length, bad
letter, bad octave; the code itself has only the single ValueError type). -/
def isFormatError : Except Err Int → Bool
  | .error .invalidNote => true
  | .error .invalidOctave => true
  | .error .invalidLetter => true
  | _ => false

/-- The track a fully successful `create_midi` call produces: the tempo
meta-message followed by one `chordBlock` per chord, where `pss` lists the
resolved pitches of each chord and `T` is the tick count per chord. -/
def seqTrack (tempo T : Int) (pss : List (List Int)) : List Msg :=
  Msg.setTempo tempo :: (pss.map (chordBlock T)).flatten

/-- Dropping a false-predicate run from a list that satisfies none of it. -/
theorem dropWhile_eq_self_of_not (l : List Char)
    (h : ∀ c ∈ l, isSpace c = false) : l.dropWhile isSpace = l := by
  cases l with
  | nil => rfl
  | cons c t => rw [List.dropWhile_cons, h c (List.mem_cons_self c t)]; simp

/-- Stripping is the identity on tokens with no whitespace characters. -/
theorem pyStrip_eq_self (l : List Char) (h : ∀ c ∈ l, isSpace c = false) :
    pyStrip l = l := by
  rw [pyStrip, dropWhile_eq_self_of_not l h,
    dropWhile_eq_self_of_not _ (fun c hc => h c (List.mem_reverse.mp hc)),
    List.reverse_reverse]

/-- Codepoint of a rendered decimal digit. -/
theorem digitChar_toNat (d : Nat) (h : d < 10) : (digitChar d).toNat = 48 + d := by
  interval_cases d <;> decide

/-- Reading back a rendered decimal digit. -/
theorem digitVal_digitChar (d : Nat) (h : d < 10) :
    digitVal (digitChar d) = some d := by
  interval_cases d <;> decide

/-- Reading back a rendered digit string. -/
theorem digitVals_map_digitChar (ds : List Nat) (h : ∀ d ∈ ds, d < 10) :
    digitVals (ds.map digitChar) = some ds := by
  induction ds with
  | nil => rfl
  | cons d t ih =>
    simp [digitVals, digitVal_digitChar d (h d (List.mem_cons_self d t)),
      ih (fun x hx => h x (List.mem_cons_of_mem d hx))]

/-- The decimal rendering of a natural number is never empty. -/
theorem natStr_ne_nil (n : Nat) : natStr n ≠ [] := by
  rw [natStr]; split
  · simp
  · next h => simp [Nat.digits_eq_nil_iff_eq_zero, h]

/-- Every character of a rendered natural number is a decimal digit. -/
theorem natStr_digit (n : Nat) : ∀ c ∈ natStr n, 48 ≤ c.toNat ∧ c.toNat ≤ 57 := by
  intro c hc
  rw [natStr] at hc
  split at hc
  · simp at hc; subst hc; decide
  · simp only [List.mem_reverse, List.mem_map] at hc
    obtain ⟨d, hd, rfl⟩ := hc
    have hlt : d < 10 := Nat.digits_lt_base (by norm_num) hd
    rw [digitChar_toNat d hlt]; omega

/-- Parsing a rendered natural number gives it back. -/
theorem parseDigits_natStr (n : Nat) : parseDigits (natStr n) = some n := by
  by_cases h : n = 0
  · subst h; decide
  · have hds : digitVals (((Nat.digits 10 n).map digitChar).reverse)
        = some ((Nat.digits 10 n).reverse) := by
      rw [← List.map_reverse]
      exact digitVals_map_digitChar _ (fun d hd =>
        Nat.digits_lt_base (by norm_num) (List.mem_reverse.mp hd))
    rw [natStr, if_neg h, parseDigits, hds]
    simp [Nat.digits_eq_nil_iff_eq_zero, h, Nat.ofDigits_digits]

/-- Characters with a codepoint of 33 or more are not whitespace. -/
theorem isSpace_eq_false (c : Char) (h : 33 ≤ c.toNat) : isSpace c = false := by
  simp only [isSpace, Bool.or_eq_false_iff, beq_eq_false_iff_ne, ne_eq]
  omega

/-- The rendering of an integer contains no whitespace. -/
theorem intStr_not_space (o : Int) : ∀ c ∈ intStr o, isSpace c = false := by
  intro c hc
  rw [intStr] at hc
  split at hc
  · rcases List.mem_cons.mp hc with rfl | hc
    · decide
    · exact isSpace_eq_false c (by have := natStr_digit _ c hc; omega)
  · exact isSpace_eq_false c (by have := natStr_digit _ c hc; omega)

/-- The rendering of an integer is never empty. -/
theorem intStr_ne_nil (o : Int) : intStr o ≠ [] := by
  rw [intStr]; split
  · simp
  · exact natStr_ne_nil _

/-- The first character of a rendered integer is a minus sign or a digit. -/
theorem intStr_head (o : Int) (c : Char) (l : List Char)
    (h : intStr o = c :: l) :
    c.toNat = 45 ∨ (48 ≤ c.toNat ∧ c.toNat ≤ 57) := by
  rw [intStr] at h
  split at h
  · injection h with h1 _
    subst h1; left; decide
  · right
    exact natStr_digit _ c (by rw [h]; exact List.mem_cons_self c l)

/-- Python `int()` reads back the decimal rendering of any integer. -/
theorem pyInt_intStr (o : Int) : pyInt (intStr o) = some o := by
  rw [pyInt, pyStrip_eq_self _ (intStr_not_space o)]
  by_cases ho : o < 0
  · rw [intStr, if_pos ho]
    simp only [pyIntTail, if_pos rfl, parseDigits_natStr, Option.map_some',
      Option.some.injEq, if_true, eq_self_iff_true]
    omega
  · obtain ⟨c, l, hcl⟩ : ∃ c l, natStr o.toNat = c :: l := by
      cases hh : natStr o.toNat with
      | nil => exact absurd hh (natStr_ne_nil _)
      | cons c l => exact ⟨c, l, rfl⟩
    have hdig := natStr_digit o.toNat c (by rw [hcl]; exact List.mem_cons_self c l)
    have hc1 : c ≠ '-' := by intro hcm; subst hcm; revert hdig; decide
    have hc2 : c ≠ '+' := by intro hcp; subst hcp; revert hdig; decide
    rw [intStr, if_neg ho, hcl]
    simp only [pyIntTail, if_neg hc1, if_neg hc2, ← hcl, parseDigits_natStr,
      Option.map_some', Option.some.injEq]
    omega

/-- The accidental test fails when the second character is neither `#` nor
`b`. -/
theorem hasAcc_eq_false (c1 : Char) (rest : List Char) (h1 : c1 ≠ '#')
    (h2 : c1 ≠ 'b') : hasAcc c1 rest = false := by
  simp [hasAcc, h1, h2]

/-- The accidental test fires on `#`/`b` followed by at least one
character. -/
theorem hasAcc_eq_true (c1 : Char) (rest : List Char) (hne : rest ≠ [])
    (hc : c1 = '#' ∨ c1 = 'b') : hasAcc c1 rest = true := by
  rcases hc with rfl | rfl <;> simp [hasAcc, hne]

/-- The first character of a rendered integer is not an accidental. -/
theorem intStr_head_not_acc (o : Int) (d : Char) (ds : List Char)
    (h : intStr o = d :: ds) : d ≠ '#' ∧ d ≠ 'b' := by
  have hd := intStr_head o d ds h
  constructor <;> intro hh <;> subst hh <;> revert hd <;> decide

/-- A rendered integer splits into a head character and a tail. -/
theorem intStr_cons (o : Int) : ∃ d ds, intStr o = d :: ds := by
  cases hh : intStr o with
  | nil => exact absurd hh (intStr_ne_nil o)
  | cons d ds => exact ⟨d, ds, rfl⟩

/-- Evaluation of the resolver on a natural token: letter then rendered
octave. -/
theorem note_to_midi_plain (c0 : Char) (o : Int) (h0 : isSpace c0 = false) :
    note_to_midi (c0 :: intStr o) =
      (match note_base [c0.toUpper] with
       | some v => .ok (12 * (o + 1) + v)
       | none => .error .invalidNote) := by
  obtain ⟨d, ds, hd⟩ := intStr_cons o
  have hna := intStr_head_not_acc o d ds hd
  have hacc : hasAcc d ds = false := hasAcc_eq_false d ds hna.1 hna.2
  have hs : pyStrip (c0 :: intStr o) = c0 :: intStr o := by
    apply pyStrip_eq_self
    intro c hc
    rcases List.mem_cons.mp hc with rfl | hc
    · exact h0
    · exact intStr_not_space o c hc
  rw [note_to_midi, hs, hd]
  simp only [resolveStripped, octaveSub, hacc, Bool.false_eq_true, if_false,
    ← hd, pyInt_intStr]
  cases note_base [c0.toUpper] <;> rfl

/-- Evaluation of the resolver on a sharp token: letter, `#`, rendered
octave. -/
theorem note_to_midi_sharp (c0 : Char) (o : Int) (h0 : isSpace c0 = false) :
    note_to_midi (c0 :: '#' :: intStr o) =
      (match note_base [c0.toUpper, '#'] with
       | some v => .ok (12 * (o + 1) + v)
       | none => .error .invalidNote) := by
  have hacc : hasAcc '#' (intStr o) = true :=
    hasAcc_eq_true _ _ (intStr_ne_nil o) (Or.inl rfl)
  have hs : pyStrip (c0 :: '#' :: intStr o) = c0 :: '#' :: intStr o := by
    apply pyStrip_eq_self
    intro c hc
    rcases List.mem_cons.mp hc with rfl | hc
    · exact h0
    rcases List.mem_cons.mp hc with rfl | hc
    · decide
    · exact intStr_not_space o c hc
  rw [note_to_midi, hs]
  simp only [resolveStripped, octaveSub, hacc, if_true, pyInt_intStr]
  cases note_base [c0.toUpper, '#'] <;> rfl

/-- Evaluation of the resolver on a flat token: letter, `b`, rendered
octave. -/
theorem note_to_midi_flat (c0 : Char) (o : Int) (h0 : isSpace c0 = false) :
    note_to_midi (c0 :: 'b' :: intStr o) =
      (match note_base [c0.toUpper] with
       | some v => .ok (12 * (o + 1) + (v - 1) % 12)
       | none => .error .invalidLetter) := by
  have hacc : hasAcc 'b' (intStr o) = true :=
    hasAcc_eq_true _ _ (intStr_ne_nil o) (Or.inr rfl)
  have hs : pyStrip (c0 :: 'b' :: intStr o) = c0 :: 'b' :: intStr o := by
    apply pyStrip_eq_self
    intro c hc
    rcases List.mem_cons.mp hc with rfl | hc
    · exact h0
    rcases List.mem_cons.mp hc with rfl | hc
    · decide
    · exact intStr_not_space o c hc
  rw [note_to_midi, hs]
  simp only [resolveStripped, octaveSub, hacc, if_true, pyInt_intStr]
  cases note_base [c0.toUpper] <;> rfl

/-- Resolution of a natural token whose letter is in the base table. -/
theorem plain_case (c : Char) (o : Int) (v : Int) (hsp : isSpace c = false)
    (hv : note_base [c.toUpper] = some v) :
    note_to_midi (c :: intStr o) = .ok (12 * (o + 1) + v) := by
  rw [note_to_midi_plain c o hsp, hv]

/-- Resolution of a sharp token whose letter+sharp is in the base table. -/
theorem sharp_case (c : Char) (o : Int) (v : Int) (hsp : isSpace c = false)
    (hv : note_base [c.toUpper, '#'] = some v) :
    note_to_midi (c :: '#' :: intStr o) = .ok (12 * (o + 1) + v) := by
  rw [note_to_midi_sharp c o hsp, hv]

/-- Resolution of a flat token whose letter is in the base table. -/
theorem flat_case (c : Char) (o : Int) (v : Int) (hsp : isSpace c = false)
    (hv : note_base [c.toUpper] = some v) :
    note_to_midi (c :: 'b' :: intStr o) = .ok (12 * (o + 1) + (v - 1) % 12) := by
  rw [note_to_midi_flat c o hsp, hv]

/-- The base table holds no singleton key outside the seven letters. -/
theorem note_base_single_none (c : Char)
    (h : c ∉ (['C', 'D', 'E', 'F', 'G', 'A', 'B'] : List Char)) :
    note_base [c] = none := by
  simp only [List.mem_cons, not_or] at h
  unfold note_base
  split <;> simp_all

/-- The base table holds no two-character key whose letter is outside the
seven letters. -/
theorem note_base_pair_none (c a : Char)
    (h : c ∉ (['C', 'D', 'E', 'F', 'G', 'A', 'B'] : List Char)) :
    note_base [c, a] = none := by
  simp only [List.mem_cons, not_or] at h
  unfold note_base
  split <;> simp_all

/-- Resolution of a sharp token whose letter+sharp is missing from the base
table (the code raises the final ValueError of `note_to_midi`). -/
theorem sharp_fail (c : Char) (o : Int) (hsp : isSpace c = false)
    (hv : note_base [c.toUpper, '#'] = none) :
    note_to_midi (c :: '#' :: intStr o) = .error .invalidNote := by
  rw [note_to_midi_sharp c o hsp, hv]

/-- C1 counterexample: the token E#4 does not resolve to
`12 * (4 + 1) + offset(E) + 1 = 65` as the claim's sharps-add-1 rule demands;
the code raises ValueError because `E#` is absent from its base table. -/
theorem C1_sharp_table_cex :
    note_to_midi ['E', '#', '4'] = .error .invalidNote ∧
    note_to_midi ['E', '#', '4'] ≠ .ok (12 * (4 + 1) + specNatural 'E' + 1) := by
  decide

/-- C1 (amended): for every token made of a letter A-G (either case) and a
rendered integer octave `o`, optionally with a `#` accidental whose
sharpened letter is one of C, D, F, G, A (the sharp keys the base table
holds), the resolver returns exactly `12 * (o + 1) + semitoneOffset` with the
table C=0, D=2, E=4, F=5, G=7, A=9, B=11 and sharps adding 1; the two sharp
spellings absent from the table, E# and B#, are instead rejected with
ValueError. -/
theorem C1_resolver_formula (c : Char) (o : Int) (sharp : Bool)
    (hc : c ∈ noteLetters)
    (hsharp : sharp = true → c.toUpper ∈ (['C', 'D', 'F', 'G', 'A'] : List Char)) :
    note_to_midi (c :: (if sharp then ['#'] else []) ++ intStr o) =
      .ok (12 * (o + 1) + specNatural c.toUpper + if sharp then 1 else 0) ∧
    note_to_midi ('E' :: '#' :: intStr o) = .error .invalidNote ∧
    note_to_midi ('B' :: '#' :: intStr o) = .error .invalidNote := by
  refine ⟨?_, sharp_fail 'E' o (by decide) (by decide),
    sharp_fail 'B' o (by decide) (by decide)⟩
  simp only [noteLetters] at hc
  fin_cases hc
  · cases sharp
    · simpa [show specNatural 'C' = 0 from rfl] using
        plain_case 'C' o 0 (by decide) (by decide)
    · simpa [show specNatural 'C' = 0 from rfl, add_assoc] using
        sharp_case 'C' o 1 (by decide) (by decide)
  · cases sharp
    · simpa [show specNatural 'D' = 2 from rfl] using
        plain_case 'D' o 2 (by decide) (by decide)
    · simpa [show specNatural 'D' = 2 from rfl, add_assoc] using
        sharp_case 'D' o 3 (by decide) (by decide)
  · cases sharp
    · simpa [show specNatural 'E' = 4 from rfl] using
        plain_case 'E' o 4 (by decide) (by decide)
    · exact absurd (hsharp rfl) (by decide)
  · cases sharp
    · simpa [show specNatural 'F' = 5 from rfl] using
        plain_case 'F' o 5 (by decide) (by decide)
    · simpa [show specNatural 'F' = 5 from rfl, add_assoc] using
        sharp_case 'F' o 6 (by decide) (by decide)
  · cases sharp
    · simpa [show specNatural 'G' = 7 from rfl] using
        plain_case 'G' o 7 (by decide) (by decide)
    · simpa [show specNatural 'G' = 7 from rfl, add_assoc] using
        sharp_case 'G' o 8 (by decide) (by decide)
  · cases sharp
    · simpa [show specNatural 'A' = 9 from rfl] using
        plain_case 'A' o 9 (by decide) (by decide)
    · simpa [show specNatural 'A' = 9 from rfl, add_assoc] using
        sharp_case 'A' o 10 (by decide) (by decide)
  · cases sharp
    · simpa [show specNatural 'B' = 11 from rfl] using
        plain_case 'B' o 11 (by decide) (by decide)
    · exact absurd (hsharp rfl) (by decide)
  · cases sharp
    · simpa [show specNatural 'C' = 0 from rfl] using
        plain_case 'c' o 0 (by decide) (by decide)
    · simpa [show specNatural 'C' = 0 from rfl, add_assoc] using
        sharp_case 'c' o 1 (by decide) (by decide)
  · cases sharp
    · simpa [show specNatural 'D' = 2 from rfl] using
        plain_case 'd' o 2 (by decide) (by decide)
    · simpa [show specNatural 'D' = 2 from rfl, add_assoc] using
        sharp_case 'd' o 3 (by decide) (by decide)
  · cases sharp
    · simpa [show specNatural 'E' = 4 from rfl] using
        plain_case 'e' o 4 (by decide) (by decide)
    · exact absurd (hsharp rfl) (by decide)
  · cases sharp
    · simpa [show specNatural 'F' = 5 from rfl] using
        plain_case 'f' o 5 (by decide) (by decide)
    · simpa [show specNatural 'F' = 5 from rfl, add_assoc] using
        sharp_case 'f' o 6 (by decide) (by decide)
  · cases sharp
    · simpa [show specNatural 'G' = 7 from rfl] using
        plain_case 'g' o 7 (by decide) (by decide)
    · simpa [show specNatural 'G' = 7 from rfl, add_assoc] using
        sharp_case 'g' o 8 (by decide) (by decide)
  · cases sharp
    · simpa [show specNatural 'A' = 9 from rfl] using
        plain_case 'a' o 9 (by decide) (by decide)
    · simpa [show specNatural 'A' = 9 from rfl, add_assoc] using
        sharp_case 'a' o 10 (by decide) (by decide)
  · cases sharp
    · simpa [show specNatural 'B' = 11 from rfl] using
        plain_case 'b' o 11 (by decide) (by decide)
    · exact absurd (hsharp rfl) (by decide)

/-- C1 witness: at the concrete input C, octave 4, no accidental, the
hypotheses hold and the resolver follows the formula; moreover the concrete
token "C4" resolves to pitch 60. -/
theorem C1_resolver_formula_witness :
    'C' ∈ noteLetters ∧
    note_to_midi ('C' :: (if false then ['#'] else []) ++ intStr 4) =
      .ok (12 * (4 + 1) + specNatural ('C').toUpper + if false then 1 else 0) ∧
    note_to_midi ['C', '4'] = .ok 60 :=
  ⟨by decide, (C1_resolver_formula 'C' 4 false (by decide) (by decide)).1,
    by decide⟩

/-- C3: sharp/flat enharmonic equivalence: C#o = Dbo and F#o = Gbo for every
octave `o`, and in general every valid flat token resolves with semitone
offset `(naturalOffset(letter) - 1) % 12` in the written octave, so every
sharp/flat pair naming the same sounding pitch resolves identically. -/
theorem C3_enharmonic_equivalence (o : Int) (c : Char) (hc : c ∈ noteLetters) :
    note_to_midi ('C' :: '#' :: intStr o) = note_to_midi ('D' :: 'b' :: intStr o) ∧
    note_to_midi ('F' :: '#' :: intStr o) = note_to_midi ('G' :: 'b' :: intStr o) ∧
    note_to_midi (c :: 'b' :: intStr o) =
      .ok (12 * (o + 1) + (specNatural c.toUpper - 1) % 12) := by
  refine ⟨?_, ?_, ?_⟩
  · rw [sharp_case 'C' o 1 (by decide) (by decide),
      flat_case 'D' o 2 (by decide) (by decide)]
    norm_num
  · rw [sharp_case 'F' o 6 (by decide) (by decide),
      flat_case 'G' o 7 (by decide) (by decide)]
    norm_num
  · simp only [noteLetters] at hc
    fin_cases hc
    · simpa [show specNatural 'C' = 0 from rfl] using
        flat_case 'C' o 0 (by decide) (by decide)
    · simpa [show specNatural 'D' = 2 from rfl] using
        flat_case 'D' o 2 (by decide) (by decide)
    · simpa [show specNatural 'E' = 4 from rfl] using
        flat_case 'E' o 4 (by decide) (by decide)
    · simpa [show specNatural 'F' = 5 from rfl] using
        flat_case 'F' o 5 (by decide) (by decide)
    · simpa [show specNatural 'G' = 7 from rfl] using
        flat_case 'G' o 7 (by decide) (by decide)
    · simpa [show specNatural 'A' = 9 from rfl] using
        flat_case 'A' o 9 (by decide) (by decide)
    · simpa [show specNatural 'B' = 11 from rfl] using
        flat_case 'B' o 11 (by decide) (by decide)
    · simpa [show specNatural 'C' = 0 from rfl] using
        flat_case 'c' o 0 (by decide) (by decide)
    · simpa [show specNatural 'D' = 2 from rfl] using
        flat_case 'd' o 2 (by decide) (by decide)
    · simpa [show specNatural 'E' = 4 from rfl] using
        flat_case 'e' o 4 (by decide) (by decide)
    · simpa [show specNatural 'F' = 5 from rfl] using
        flat_case 'f' o 5 (by decide) (by decide)
    · simpa [show specNatural 'G' = 7 from rfl] using
        flat_case 'g' o 7 (by decide) (by decide)
    · simpa [show specNatural 'A' = 9 from rfl] using
        flat_case 'a' o 9 (by decide) (by decide)
    · simpa [show specNatural 'B' = 11 from rfl] using
        flat_case 'b' o 11 (by decide) (by decide)

/-- C3 witness: at octave 3 and letter C the hypothesis holds and the
enharmonic equalities are established. -/
theorem C3_enharmonic_equivalence_witness :
    'C' ∈ noteLetters ∧
    (note_to_midi ('C' :: '#' :: intStr 3) = note_to_midi ('D' :: 'b' :: intStr 3) ∧
     note_to_midi ('F' :: '#' :: intStr 3) = note_to_midi ('G' :: 'b' :: intStr 3) ∧
     note_to_midi ('C' :: 'b' :: intStr 3) =
       .ok (12 * (3 + 1) + (specNatural ('C').toUpper - 1) % 12)) :=
  ⟨by decide, C3_enharmonic_equivalence 3 'C' (by decide)⟩

/-- C10 (implicit): the flat of C stays in the written octave: Cb(o) resolves
to `12 * (o + 1) + 11`, the same pitch as B(o) — one octave above the
conventional sounding pitch of C-flat — because the flat rule computes
`(0 - 1) % 12 = 11` and the octave term is unchanged. -/
theorem C10_flat_C_written_octave (o : Int) :
    note_to_midi ('C' :: 'b' :: intStr o) = .ok (12 * (o + 1) + 11) ∧
    note_to_midi ('C' :: 'b' :: intStr o) = note_to_midi ('B' :: intStr o) := by
  rw [flat_case 'C' o 0 (by decide) (by decide),
    plain_case 'B' o 11 (by decide) (by decide)]
  norm_num

/-- C7: the resolver fails with one of its ValueError raises (the spec's
InvalidNoteFormat family) for every token whose stripped length is below 2,
whose upper-cased first letter is outside A-G, or whose octave substring does
not parse as an integer; in particular the tokens "", "H4", "C" and "Cx" all
fail. -/
theorem C7_invalid_note_format (s : List Char) :
    ((pyStrip s).length < 2 → isFormatError (note_to_midi s) = true) ∧
    (∀ c0 c1 rest, pyStrip s = c0 :: c1 :: rest →
      c0.toUpper ∉ (['C', 'D', 'E', 'F', 'G', 'A', 'B'] : List Char) →
      isFormatError (note_to_midi s) = true) ∧
    (∀ c0 c1 rest, pyStrip s = c0 :: c1 :: rest →
      pyInt (octaveSub c1 rest) = none →
      note_to_midi s = .error .invalidOctave) ∧
    note_to_midi [] = .error .invalidNote ∧
    note_to_midi ['H', '4'] = .error .invalidNote ∧
    note_to_midi ['C'] = .error .invalidNote ∧
    note_to_midi ['C', 'x'] = .error .invalidOctave := by
  refine ⟨?_, ?_, ?_, by decide, by decide, by decide, by decide⟩
  · intro hlen
    rw [note_to_midi]
    cases hs : pyStrip s with
    | nil => rfl
    | cons c0 t =>
      cases t with
      | nil => rfl
      | cons c1 rest =>
        rw [hs] at hlen
        simp [List.length_cons] at hlen
        omega
  · intro c0 c1 rest hs hletter
    rw [note_to_midi, hs]
    simp only [resolveStripped]
    cases hpy : pyInt (octaveSub c1 rest) with
    | none => rfl
    | some o =>
      by_cases hacc : hasAcc c1 rest = true
      · by_cases hb : c1 = 'b'
        · subst hb
          simp only [hacc, if_true, if_pos rfl,
            note_base_single_none c0.toUpper hletter]
          rfl
        · have hne : ([c1] : List Char) ≠ ['b'] := by simp [hb]
          simp only [hacc, if_true, if_neg hne,
            note_base_pair_none c0.toUpper c1 hletter]
          rfl
      · have hacc' : hasAcc c1 rest = false := by
          revert hacc; cases hasAcc c1 rest <;> simp
        have hne : ([] : List Char) ≠ ['b'] := by simp
        simp only [hacc', Bool.false_eq_true, if_false, if_neg hne,
          note_base_single_none c0.toUpper hletter]
        rfl
  · intro c0 c1 rest hs hpy
    rw [note_to_midi, hs]
    simp only [resolveStripped, hpy]

/-- C7 witness: the concrete token "C" has stripped length below 2 and fails
with a ValueError of the resolver. -/
theorem C7_invalid_note_format_witness :
    (pyStrip ['C']).length < 2 ∧ isFormatError (note_to_midi ['C']) = true :=
  ⟨by decide, (C7_invalid_note_format ['C']).1 (by decide)⟩

/-- Mapping a fallible function successfully preserves the length. -/
theorem mapExcept_ok_length {α β : Type} (f : α → Except Err β) (l : List α)
    (l' : List β) (h : mapExcept f l = .ok l') : l'.length = l.length := by
  induction l generalizing l' with
  | nil => simp only [mapExcept] at h; cases h; rfl
  | cons a t ih =>
    simp only [mapExcept] at h
    cases hfa : f a with
    | error e => rw [hfa] at h; simp at h
    | ok b =>
      rw [hfa] at h
      cases hft : mapExcept f t with
      | error e => rw [hft] at h; simp at h
      | ok bs =>
        rw [hft] at h
        simp at h
        subst h
        simp [ih bs hft]

/-- When every note of a chord resolves, the note-on loop appends exactly the
note-on messages of the resolved pitches and reports no error. -/
theorem appendOns_ok (c : List (List Char)) (ms : List Int) (t : List Msg)
    (h : mapExcept midoNote c = .ok ms) :
    appendOns t c = (t ++ onMsgs ms, none) := by
  induction c generalizing ms t with
  | nil =>
    simp only [mapExcept] at h
    cases h
    simp [appendOns, onMsgs]
  | cons n c ih =>
    simp only [mapExcept] at h
    cases hmn : midoNote n with
    | error e => rw [hmn] at h; simp at h
    | ok m =>
      rw [hmn] at h
      cases hmc : mapExcept midoNote c with
      | error e => rw [hmc] at h; simp at h
      | ok bs =>
        rw [hmc] at h
        simp at h
        subst h
        simp only [appendOns, hmn]
        rw [ih bs _ hmc]
        simp [onMsgs]

/-- When every note of a chord resolves, the note-off loop appends exactly
the note-off messages of the resolved pitches and reports no error. -/
theorem appendOffs_ok (c : List (List Char)) (ms : List Int) (t : List Msg)
    (h : mapExcept midoNote c = .ok ms) :
    appendOffs t c = (t ++ offMsgs ms, none) := by
  induction c generalizing ms t with
  | nil =>
    simp only [mapExcept] at h
    cases h
    simp [appendOffs, offMsgs]
  | cons n c ih =>
    simp only [mapExcept] at h
    cases hmn : midoNote n with
    | error e => rw [hmn] at h; simp at h
    | ok m =>
      rw [hmn] at h
      cases hmc : mapExcept midoNote c with
      | error e => rw [hmc] at h; simp at h
      | ok bs =>
        rw [hmc] at h
        simp at h
        subst h
        simp only [appendOffs, hmn]
        rw [ih bs _ hmc]
        simp [offMsgs]

/-- When every chord of a progression resolves, the chord loop appends
exactly the chord blocks and reports no error. -/
theorem processChords_ok (css : List (List (List Char)))
    (pss : List (List Int)) (T : Int) (t : List Msg)
    (h : mapExcept (mapExcept midoNote) css = .ok pss) :
    processChords T t css = (t ++ (pss.map (chordBlock T)).flatten, none) := by
  induction css generalizing pss t with
  | nil =>
    simp only [mapExcept] at h
    cases h
    simp [processChords]
  | cons c cs ih =>
    simp only [mapExcept] at h
    cases hc : mapExcept midoNote c with
    | error e => rw [hc] at h; simp at h
    | ok ms =>
      rw [hc] at h
      cases hcs : mapExcept (mapExcept midoNote) cs with
      | error e => rw [hcs] at h; simp at h
      | ok pss' =>
        rw [hcs] at h
        simp at h
        subst h
        simp only [processChords]
        rw [appendOns_ok c ms t hc]
        simp only []
        rw [appendOffs_ok c ms _ hc]
        simp only []
        rw [ih pss' _ hcs]
        simp [chordBlock, List.append_assoc]

/-- A note-on loop that reports no error resolved every note of its chord. -/
theorem appendOns_none (c : List (List Char)) (t t' : List Msg)
    (h : appendOns t c = (t', none)) :
    ∀ n ∈ c, ∃ m, midoNote n = .ok m := by
  induction c generalizing t with
  | nil => intro n hn; exact absurd hn (List.not_mem_nil n)
  | cons n c ih =>
    intro x hx
    simp only [appendOns] at h
    cases hmn : midoNote n with
    | error e => rw [hmn] at h; simp at h
    | ok m =>
      rw [hmn] at h
      rcases List.mem_cons.mp hx with rfl | hx
      · exact ⟨m, hmn⟩
      · exact ih _ h x hx

/-- A chord loop that reports no error resolved every note of every chord. -/
theorem processChords_none (css : List (List (List Char))) (T : Int)
    (t t' : List Msg) (h : processChords T t css = (t', none)) :
    ∀ c ∈ css, ∀ n ∈ c, ∃ m, midoNote n = .ok m := by
  induction css generalizing t with
  | nil => intro c hc; exact absurd hc (List.not_mem_nil c)
  | cons c cs ih =>
    intro c' hc'
    simp only [processChords] at h
    cases ha : appendOns t c with
    | mk t1 r1 =>
      cases r1 with
      | some e => rw [ha] at h; simp at h
      | none =>
        rw [ha] at h
        simp only [] at h
        cases hb : appendOffs (t1 ++ [Msg.noteOff 0 0 T]) c with
        | mk t2 r2 =>
          cases r2 with
          | some e => rw [hb] at h; simp at h
          | none =>
            rw [hb] at h
            simp only [] at h
            rcases List.mem_cons.mp hc' with rfl | hc'
            · exact appendOns_none c' t t1 ha
            · exact ih _ h c' hc'

/-- Every note-on message of a chord is a pitched event. -/
theorem onMsgs_filter_pitched (ms : List Int) :
    (onMsgs ms).filter isPitched = onMsgs ms := by
  rw [List.filter_eq_self]
  intro m hm
  obtain ⟨x, hx, rfl⟩ := List.mem_map.mp hm
  rfl

/-- Every note-off message of a chord is a pitched event (velocity 64). -/
theorem offMsgs_filter_pitched (ms : List Int) :
    (offMsgs ms).filter isPitched = offMsgs ms := by
  rw [List.filter_eq_self]
  intro m hm
  obtain ⟨x, hx, rfl⟩ := List.mem_map.mp hm
  rfl

/-- Pitched-event count of the note-on messages of one chord. -/
theorem onMsgs_count_pitched (ms : List Int) :
    ((onMsgs ms).filter isPitched).length = ms.length := by
  rw [onMsgs_filter_pitched, onMsgs, List.length_map]

/-- Pitched-event count of the note-off messages of one chord. -/
theorem offMsgs_count_pitched (ms : List Int) :
    ((offMsgs ms).filter isPitched).length = ms.length := by
  rw [offMsgs_filter_pitched, offMsgs, List.length_map]

/-- A chord block contains exactly twice its pitch count of pitched
events. -/
theorem chordBlock_count_pitched (T : Int) (ms : List Int) :
    ((chordBlock T ms).filter isPitched).length = 2 * ms.length := by
  simp [chordBlock, List.filter_append, onMsgs_count_pitched,
    offMsgs_count_pitched, isPitched]
  omega

/-- The note-on messages of a chord contain no duration marker. -/
theorem onMsgs_count_marker (ms : List Int) :
    ((onMsgs ms).filter isMarker).length = 0 := by
  rw [List.length_eq_zero, List.filter_eq_nil_iff]
  intro m hm
  obtain ⟨x, hx, rfl⟩ := List.mem_map.mp hm
  simp [isMarker]

/-- The note-off messages of a chord contain no duration marker (their
velocity is 64, the marker's is 0). -/
theorem offMsgs_count_marker (ms : List Int) :
    ((offMsgs ms).filter isMarker).length = 0 := by
  rw [List.length_eq_zero, List.filter_eq_nil_iff]
  intro m hm
  obtain ⟨x, hx, rfl⟩ := List.mem_map.mp hm
  simp [isMarker]

/-- A chord block contains exactly one duration marker. -/
theorem chordBlock_count_marker (T : Int) (ms : List Int) :
    ((chordBlock T ms).filter isMarker).length = 1 := by
  simp [chordBlock, List.filter_append, onMsgs_count_marker,
    offMsgs_count_marker, isMarker]

/-- Pitched-event count of a whole progression's blocks. -/
theorem flatten_count_pitched (T : Int) (pss : List (List Int)) (k : Nat)
    (hk : ∀ ps ∈ pss, ps.length = k) :
    (((pss.map (chordBlock T)).flatten).filter isPitched).length
      = pss.length * (2 * k) := by
  induction pss with
  | nil => simp
  | cons ps pss ih =>
    simp only [List.map_cons, List.flatten_cons, List.filter_append,
      List.length_append, List.length_cons]
    rw [chordBlock_count_pitched, hk ps (List.mem_cons_self ps pss),
      ih (fun x hx => hk x (List.mem_cons_of_mem ps hx))]
    ring

/-- Marker count of a whole progression's blocks. -/
theorem flatten_count_marker (T : Int) (pss : List (List Int)) :
    (((pss.map (chordBlock T)).flatten).filter isMarker).length
      = pss.length := by
  induction pss with
  | nil => rfl
  | cons ps pss ih =>
    simp only [List.map_cons, List.flatten_cons, List.filter_append,
      List.length_append, List.length_cons]
    rw [chordBlock_count_marker, ih]
    omega

/-- Delta-time sums add over concatenation. -/
theorem deltaSum_append (a b : List Msg) :
    deltaSum (a ++ b) = deltaSum a + deltaSum b := by
  simp [deltaSum]

/-- Note-on messages carry no delta time. -/
theorem deltaSum_onMsgs (ms : List Int) : deltaSum (onMsgs ms) = 0 := by
  simp [deltaSum, onMsgs, List.map_map, timeOf, Function.comp_def]

/-- Note-off messages carry no delta time. -/
theorem deltaSum_offMsgs (ms : List Int) : deltaSum (offMsgs ms) = 0 := by
  simp [deltaSum, offMsgs, List.map_map, timeOf, Function.comp_def]

/-- One chord block advances time by exactly its tick count. -/
theorem deltaSum_chordBlock (T : Int) (ms : List Int) :
    deltaSum (chordBlock T ms) = T := by
  rw [chordBlock, deltaSum_append, deltaSum_append, deltaSum_onMsgs,
    deltaSum_offMsgs]
  simp [deltaSum, timeOf]

/-- A chord block holds `2 * k + 1` messages when the chord has `k`
pitches. -/
theorem chordBlock_length (T : Int) (ms : List Int) :
    (chordBlock T ms).length = 2 * ms.length + 1 := by
  simp [chordBlock, onMsgs, offMsgs]
  omega

/-- The first `j` chord blocks of a progression of `k`-note chords span
exactly `j` chord durations of delta time. -/
theorem take_blocks (T : Int) (k : Nat) (pss : List (List Int))
    (hk : ∀ ps ∈ pss, ps.length = k) :
    ∀ j ≤ pss.length,
      deltaSum (((pss.map (chordBlock T)).flatten).take (j * (2 * k + 1)))
        = j * T := by
  induction pss with
  | nil =>
    intro j hj
    have : j = 0 := Nat.le_zero.mp hj
    subst this
    simp [deltaSum]
  | cons ps pss ih =>
    intro j hj
    cases j with
    | zero => simp [deltaSum]
    | succ j' =>
      have hlen : (chordBlock T ps).length = 2 * k + 1 := by
        rw [chordBlock_length, hk ps (List.mem_cons_self ps pss)]
      have hsm : (j' + 1) * (2 * k + 1) = j' * (2 * k + 1) + (2 * k + 1) :=
        Nat.succ_mul j' (2 * k + 1)
      rw [List.map_cons, List.flatten_cons, List.take_append_eq_append_take,
        hlen, hsm, Nat.add_sub_cancel,
        List.take_of_length_le (by rw [hlen]; exact Nat.le_add_left _ _),
        deltaSum_append, deltaSum_chordBlock,
        ih (fun x hx => hk x (List.mem_cons_of_mem ps hx)) j'
          (Nat.le_of_succ_le_succ hj)]
      push_cast
      ring

/-- Start offset of chord `j` in a successful track: `j` chord durations. -/
theorem chordStart_seqTrack (tempo T : Int) (k : Nat) (pss : List (List Int))
    (hk : ∀ ps ∈ pss, ps.length = k) :
    ∀ j ≤ pss.length, chordStart (seqTrack tempo T pss) k j = j * T := by
  intro j hj
  rw [chordStart, seqTrack]
  have h1 : 1 + j * (2 * k + 1) = j * (2 * k + 1) + 1 := by omega
  rw [h1, List.take_succ_cons]
  rw [show deltaSum (Msg.setTempo tempo ::
      ((pss.map (chordBlock T)).flatten).take (j * (2 * k + 1)))
    = deltaSum (((pss.map (chordBlock T)).flatten).take (j * (2 * k + 1)))
    from by simp [deltaSum, timeOf]]
  exact take_blocks T k pss hk j hj

/-- A fully resolving progression gives the block-structured track. -/
theorem create_midi_ok (chords : List (List (List Char)))
    (pss : List (List Int)) (dur : ℚ) (tempo : Int) (ht0 : 0 < tempo)
    (ht1 : tempo ≤ 16777215)
    (hres : mapExcept (mapExcept midoNote) chords = .ok pss) :
    create_midi chords dur tempo =
      .ok (seqTrack tempo (ticksPerChord 480 dur tempo) pss) := by
  rw [create_midi, if_neg (by omega), if_neg (by omega),
    processChords_ok chords pss _ _ hres]
  simp [seqTrack]

/-- Tick count of the reference configuration: 480 pulses per beat, tempo
500000 µs per beat, 2 s per chord give 1920 pulses per chord. -/
theorem ticksPerChord_2s : ticksPerChord 480 2 500000 = 1920 := by
  have heq : (2 : ℚ) / (((500000 : Int) : ℚ) / 1000000) * ((480 : Nat) : ℚ)
      = 1920 := by norm_num
  rw [ticksPerChord, heq, pyTrunc, if_pos (by norm_num)]
  norm_num

/-- A chord duration of zero gives zero pulses per chord. -/
theorem ticksPerChord_zero_dur (tempo : Int) : ticksPerChord 480 0 tempo = 0 := by
  rw [ticksPerChord]
  simp [pyTrunc]

/-- A non-negative duration and positive tempo give a non-negative tick
count, so every delta time of the produced track is non-negative and the
final save of main.py succeeds. -/
theorem ticksPerChord_nonneg (tpb : Nat) (dur : ℚ) (tempo : Int)
    (hd : 0 ≤ dur) (ht : 0 < tempo) : 0 ≤ ticksPerChord tpb dur tempo := by
  have hq : 0 ≤ dur / ((tempo : ℚ) / 1000000) * tpb := by
    apply mul_nonneg _ (Nat.cast_nonneg tpb)
    apply div_nonneg hd
    apply div_nonneg _ (by norm_num)
    exact_mod_cast le_of_lt ht
  rw [ticksPerChord, pyTrunc, if_pos hq]
  exact Int.floor_nonneg.mpr hq

/-- A progression of empty chords resolves to empty pitch lists. -/
theorem mapExcept_replicate_nil (n : Nat) :
    mapExcept (mapExcept midoNote)
        (List.replicate n ([] : List (List Char)))
      = .ok (List.replicate n []) := by
  induction n with
  | zero => rfl
  | succ n ih => simp [List.replicate, mapExcept, ih]

/-- Flattening replicated singletons gives the replicated element. -/
theorem flatten_replicate_singleton (n : Nat) (x : Msg) :
    (List.replicate n [x]).flatten = List.replicate n x := by
  induction n with
  | zero => rfl
  | succ n ih => simp [List.replicate, ih]

/-- C2: for a fully resolving progression of N chords with k notes each, the
sequencer emits per chord its k note-ons at delta 0, one duration marker
carrying the chord's full tick count, then its k note-offs at delta 0; the
track holds exactly `N * 2k` pitched events plus N markers, and the start
offset of chord i+1 is the start offset of chord i plus the per-chord tick
count (zero gap).  Stated for non-negative durations and tempos inside
mido's valid set_tempo range 1..16777215 — outside that range the program
raises before emitting (C8), and a failing note aborts it (C5). -/
theorem C2_sequencer_events (chords : List (List (List Char))) (dur : ℚ)
    (tempo T : Int) (pss : List (List Int)) (k : Nat)
    (hd : 0 ≤ dur) (ht0 : 0 < tempo) (ht1 : tempo ≤ 16777215)
    (hT : T = ticksPerChord 480 dur tempo)
    (hres : mapExcept (mapExcept midoNote) chords = .ok pss)
    (hk : ∀ ps ∈ pss, ps.length = k) :
    create_midi chords dur tempo = .ok (seqTrack tempo T pss) ∧
    ((seqTrack tempo T pss).filter isPitched).length
      = chords.length * (2 * k) ∧
    ((seqTrack tempo T pss).filter isMarker).length = chords.length ∧
    (∀ i < chords.length,
      chordStart (seqTrack tempo T pss) k (i + 1)
        = chordStart (seqTrack tempo T pss) k i + T) ∧
    0 ≤ T := by
  subst hT
  have hlen := mapExcept_ok_length _ _ _ hres
  refine ⟨create_midi_ok _ _ _ _ ht0 ht1 hres, ?_, ?_, ?_,
    ticksPerChord_nonneg 480 dur tempo hd ht0⟩
  · have hst : isPitched (Msg.setTempo tempo) = false := rfl
    rw [seqTrack, List.filter_cons, hst]
    simp only [Bool.false_eq_true, if_false]
    rw [flatten_count_pitched _ pss k hk, hlen]
  · have hst : isMarker (Msg.setTempo tempo) = false := rfl
    rw [seqTrack, List.filter_cons, hst]
    simp only [Bool.false_eq_true, if_false]
    rw [flatten_count_marker _ pss, hlen]
  · intro i hi
    rw [chordStart_seqTrack tempo _ k pss hk (i + 1) (by omega),
      chordStart_seqTrack tempo _ k pss hk i (by omega)]
    push_cast
    ring

/-- C2 witness: the spec's end-to-end progression [[C4,E4,G4],[G4,B4,D5]]
with duration 1 s and tempo 500000 resolves to [[60,64,67],[67,71,74]] and
produces the block-structured track with the stated event counts. -/
theorem C2_sequencer_events_witness :
    mapExcept (mapExcept midoNote)
        [[['C', '4'], ['E', '4'], ['G', '4']],
         [['G', '4'], ['B', '4'], ['D', '5']]]
      = .ok [[60, 64, 67], [67, 71, 74]] ∧
    create_midi
        [[['C', '4'], ['E', '4'], ['G', '4']],
         [['G', '4'], ['B', '4'], ['D', '5']]] 1 500000
      = .ok (seqTrack 500000 (ticksPerChord 480 1 500000)
          [[60, 64, 67], [67, 71, 74]]) ∧
    ((seqTrack 500000 (ticksPerChord 480 1 500000)
        [[60, 64, 67], [67, 71, 74]]).filter isPitched).length
      = ([[['C', '4'], ['E', '4'], ['G', '4']],
          [['G', '4'], ['B', '4'], ['D', '5']]] :
            List (List (List Char))).length * (2 * 3) ∧
    ((seqTrack 500000 (ticksPerChord 480 1 500000)
        [[60, 64, 67], [67, 71, 74]]).filter isMarker).length
      = ([[['C', '4'], ['E', '4'], ['G', '4']],
          [['G', '4'], ['B', '4'], ['D', '5']]] :
            List (List (List Char))).length :=
  ⟨by decide,
    (C2_sequencer_events
      [[['C', '4'], ['E', '4'], ['G', '4']],
       [['G', '4'], ['B', '4'], ['D', '5']]] 1 500000 _
      [[60, 64, 67], [67, 71, 74]] 3 (by norm_num) (by decide) (by decide)
      rfl (by decide) (by decide)).1,
    (C2_sequencer_events
      [[['C', '4'], ['E', '4'], ['G', '4']],
       [['G', '4'], ['B', '4'], ['D', '5']]] 1 500000 _
      [[60, 64, 67], [67, 71, 74]] 3 (by norm_num) (by decide) (by decide)
      rfl (by decide) (by decide)).2.1,
    (C2_sequencer_events
      [[['C', '4'], ['E', '4'], ['G', '4']],
       [['G', '4'], ['B', '4'], ['D', '5']]] 1 500000 _
      [[60, 64, 67], [67, 71, 74]] 3 (by norm_num) (by decide) (by decide)
      rfl (by decide) (by decide)).2.2.1⟩

/-- C4: the per-chord tick count is the exact rational value
`pulsesPerBeat * chordDurationSeconds * 1e6 / microsecondsPerBeat` truncated
toward zero (the floor, for the non-negative case), never rounded to
nearest; in particular 480 pulses per beat, 500000 µs per beat and 2 s per
chord give exactly 1920 pulses, visible in the emitted track. -/
theorem C4_ticks_truncation (tpb : Nat) (dur : ℚ) (tempo : Int)
    (hd : 0 ≤ dur) (ht : 0 < tempo) :
    ((ticksPerChord tpb dur tempo : ℚ) ≤ dur * 1000000 * tpb / tempo ∧
      dur * 1000000 * tpb / tempo < ticksPerChord tpb dur tempo + 1) ∧
    ticksPerChord 480 2 500000 = 1920 ∧
    create_midi [[['C', '4']]] 2 500000 =
      .ok [Msg.setTempo 500000, Msg.noteOn 60 64 0, Msg.noteOff 0 0 1920,
        Msg.noteOff 60 64 0] := by
  refine ⟨?_, ticksPerChord_2s, ?_⟩
  · have htne : (tempo : ℚ) ≠ 0 := Int.cast_ne_zero.mpr (by omega)
    have heq : dur / ((tempo : ℚ) / 1000000) * tpb
        = dur * 1000000 * tpb / tempo := by
      field_simp
    have htp : (0 : ℚ) ≤ (tempo : ℚ) := by
      have : (0 : Int) ≤ tempo := le_of_lt ht
      exact_mod_cast this
    have hq : 0 ≤ dur * 1000000 * tpb / tempo := by
      apply div_nonneg _ htp
      apply mul_nonneg (mul_nonneg hd (by norm_num)) (Nat.cast_nonneg tpb)
    rw [ticksPerChord, heq, pyTrunc, if_pos hq]
    exact ⟨Int.floor_le _, Int.lt_floor_add_one _⟩
  · rw [create_midi_ok [[['C', '4']]] [[60]] 2 500000 (by decide) (by decide)
      (by decide), ticksPerChord_2s]
    decide

/-- C4 witness: the floor characterization and the 1920-pulse reference
value, at the reference configuration. -/
theorem C4_ticks_truncation_witness :
    (0 : ℚ) ≤ 2 ∧ (0 : Int) < 500000 ∧
    (((ticksPerChord 480 2 500000 : Int) : ℚ)
        ≤ 2 * 1000000 * ((480 : Nat) : ℚ) / ((500000 : Int) : ℚ) ∧
      2 * 1000000 * ((480 : Nat) : ℚ) / ((500000 : Int) : ℚ)
        < (ticksPerChord 480 2 500000 : Int) + 1) ∧
    ticksPerChord 480 2 500000 = 1920 :=
  ⟨by norm_num, by decide,
    (C4_ticks_truncation 480 2 500000 (by norm_num) (by decide)).1,
    (C4_ticks_truncation 480 2 500000 (by norm_num) (by decide)).2.1⟩

/-- C5 counterexample: with the progression [[C4],[X4]] the second chord
fails resolution, the error propagates — but the shared `WORKING_MIDI` track
store retains the first chord's events (tempo message, note-on 60, marker,
note-off 60), contradicting the claim that no observable state keeps events
from chords processed before the failure. -/
theorem C5_partial_state_cex :
    create_midi_cg [[['C', '4']], [['X', '4']]] 2 500000 [] =
      ([[Msg.setTempo 500000, Msg.noteOn 60 64 0, Msg.noteOff 0 0 1920,
          Msg.noteOff 60 64 0]], some Err.invalidNote) := by
  rw [create_midi_cg, if_neg (by decide), if_neg (by decide), ticksPerChord_2s]
  decide

/-- C5 (amended): a note that fails resolution makes the whole call fail —
`create_midi` returns no event list and the error is surfaced synchronously —
but the chord_generator variant still appends one (partially filled) track to
the shared `WORKING_MIDI` state. -/
theorem C5_fail_fast (chords : List (List (List Char))) (dur : ℚ)
    (tempo : Int)
    (hbad : ∃ c ∈ chords, ∃ n ∈ c, isErr (note_to_midi n) = true) :
    (∃ e, create_midi chords dur tempo = .error e) ∧
    (∀ st, ∃ e t, create_midi_cg chords dur tempo st = (st ++ [t], some e)) := by
  by_cases hr : tempo < 0 ∨ 16777215 < tempo
  · exact ⟨⟨.tempoRange, by rw [create_midi, if_pos hr]⟩,
      fun st => ⟨.tempoRange, [], by rw [create_midi_cg, if_pos hr]⟩⟩
  by_cases ht : tempo = 0
  · subst ht
    exact ⟨⟨.zeroDivision, by rw [create_midi, if_neg hr, if_pos rfl]⟩,
      fun st => ⟨.zeroDivision, [Msg.setTempo 0],
        by rw [create_midi_cg, if_neg hr, if_pos rfl]⟩⟩
  · obtain ⟨c, hc, n, hn, herr⟩ := hbad
    have hfail : ∀ t0 : List Msg,
        (processChords (ticksPerChord 480 dur tempo) t0 chords).2 ≠ none := by
      intro t0 hnone
      have heq : processChords (ticksPerChord 480 dur tempo) t0 chords
          = ((processChords (ticksPerChord 480 dur tempo) t0 chords).1,
             none) := by
        rw [← hnone]
      obtain ⟨m, hm⟩ := processChords_none chords _ t0 _ heq c hc n hn
      rw [midoNote] at hm
      cases hnt : note_to_midi n with
      | error e => rw [hnt] at hm; simp at hm
      | ok v => rw [hnt] at herr; simp [isErr] at herr
    constructor
    · rcases h2 : processChords (ticksPerChord 480 dur tempo)
          [Msg.setTempo tempo] chords with ⟨t', r⟩
      cases r with
      | none => exact absurd (by rw [h2]) (hfail _)
      | some e => exact ⟨e, by rw [create_midi, if_neg hr, if_neg ht, h2]⟩
    · intro st
      rcases h2 : processChords (ticksPerChord 480 dur tempo)
          [Msg.setTempo tempo] chords with ⟨t', r⟩
      cases r with
      | none => exact absurd (by rw [h2]) (hfail _)
      | some e =>
        refine ⟨e, t', ?_⟩
        rw [create_midi_cg, if_neg hr, if_neg ht]
        simp only [h2]

/-- C5 witness: the progression [[C4],[X4]] holds a failing note; the pure
call returns an error, and the stateful call appends exactly one track and
surfaces the error. -/
theorem C5_fail_fast_witness :
    (∃ c ∈ [[['C', '4']], [['X', '4']]], ∃ n ∈ c,
      isErr (note_to_midi n) = true) ∧
    (∃ e, create_midi [[['C', '4']], [['X', '4']]] 2 500000 = .error e) ∧
    (∃ e t, create_midi_cg [[['C', '4']], [['X', '4']]] 2 500000 []
      = ([] ++ [t], some e)) :=
  ⟨by decide, (C5_fail_fast _ 2 500000 (by decide)).1,
    (C5_fail_fast _ 2 500000 (by decide)).2 []⟩

/-- C6: an empty progression yields only the tempo message (no timed
events); a progression of empty chords still yields one full-length duration
marker per chord and no pitched events; and a chord duration of 0 yields the
complete block structure with every delta time 0 (coincident note-on and
note-off), without error and without dropping any chord.  Stated for
non-negative durations and tempos inside mido's valid set_tempo range
1..16777215 (outside it, the program raises while building the track). -/
theorem C6_edge_cases (dur : ℚ) (tempo : Int)
    (chords : List (List (List Char))) (pss : List (List Int)) (n : Nat)
    (hd : 0 ≤ dur) (ht0 : 0 < tempo) (ht1 : tempo ≤ 16777215)
    (hres : mapExcept (mapExcept midoNote) chords = .ok pss) :
    create_midi [] dur tempo = .ok [Msg.setTempo tempo] ∧
    create_midi (List.replicate n []) dur tempo =
      .ok (Msg.setTempo tempo ::
        List.replicate n (Msg.noteOff 0 0 (ticksPerChord 480 dur tempo))) ∧
    create_midi chords 0 tempo = .ok (seqTrack tempo 0 pss) ∧
    (∀ m ∈ seqTrack tempo 0 pss, timeOf m = 0) ∧
    0 ≤ ticksPerChord 480 dur tempo := by
  refine ⟨?_, ?_, ?_, ?_, ticksPerChord_nonneg 480 dur tempo hd ht0⟩
  · rw [create_midi_ok [] [] dur tempo ht0 ht1 rfl]
    simp [seqTrack]
  · rw [create_midi_ok _ _ dur tempo ht0 ht1 (mapExcept_replicate_nil n),
      seqTrack, List.map_replicate,
      show chordBlock (ticksPerChord 480 dur tempo) []
        = [Msg.noteOff 0 0 (ticksPerChord 480 dur tempo)] from rfl,
      flatten_replicate_singleton]
  · rw [create_midi_ok chords pss 0 tempo ht0 ht1 hres,
      ticksPerChord_zero_dur]
  · intro m hm
    rw [seqTrack] at hm
    rcases List.mem_cons.mp hm with rfl | hm
    · rfl
    · obtain ⟨blk, hblk, hmblk⟩ := List.mem_flatten.mp hm
      obtain ⟨ps, hps, rfl⟩ := List.mem_map.mp hblk
      rw [chordBlock] at hmblk
      rcases List.mem_append.mp hmblk with h1 | h2
      · rcases List.mem_append.mp h1 with h1a | h1b
        · rw [onMsgs] at h1a
          obtain ⟨x, hx, rfl⟩ := List.mem_map.mp h1a
          rfl
        · rw [List.mem_singleton.mp h1b]
          rfl
      · rw [offMsgs] at h2
        obtain ⟨x, hx, rfl⟩ := List.mem_map.mp h2
        rfl

/-- C6 witness: at tempo 500000 and duration 2 s, the empty progression
yields only the tempo message; two empty chords yield exactly two full
1920-pulse markers; and the one-chord progression [[C4]] with duration 0
yields the complete zero-delta block. -/
theorem C6_edge_cases_witness :
    (0 : Int) < 500000 ∧
    create_midi [] 2 500000 = .ok [Msg.setTempo 500000] ∧
    create_midi (List.replicate 2 []) 2 500000 =
      .ok (Msg.setTempo 500000 ::
        List.replicate 2 (Msg.noteOff 0 0 (ticksPerChord 480 2 500000))) ∧
    create_midi [[['C', '4']]] 0 500000
      = .ok (seqTrack 500000 0 [[60]]) :=
  ⟨by decide,
    (C6_edge_cases 2 500000 [[['C', '4']]] [[60]] 2 (by norm_num) (by decide)
      (by decide) (by decide)).1,
    (C6_edge_cases 2 500000 [[['C', '4']]] [[60]] 2 (by norm_num) (by decide)
      (by decide) (by decide)).2.1,
    (C6_edge_cases 2 500000 [[['C', '4']]] [[60]] 2 (by norm_num) (by decide)
      (by decide) (by decide)).2.2.1⟩

/-- C8 counterexample: a non-positive chord duration (here 0) is accepted
and an event sequence is produced: the code contains no timing validation
and no InvalidTimingConfig failure exists in it. -/
theorem C8_no_validation_cex :
    create_midi [[['C', '4']]] 0 500000 =
      .ok [Msg.setTempo 500000, Msg.noteOn 60 64 0, Msg.noteOff 0 0 0,
        Msg.noteOff 60 64 0] := by
  rw [create_midi_ok [[['C', '4']]] [[60]] 0 500000 (by decide) (by decide)
    (by decide), ticksPerChord_zero_dur]
  decide

/-- C8 (amended): the code itself performs no timing validation and no
InvalidTimingConfig exists: a non-positive chord duration is not rejected —
duration 0 with a valid tempo produces the full event sequence — and the
only timing-induced failures are untyped Python/mido errors: a tempo of 0
raises ZeroDivisionError at the beats-per-chord division, and a tempo
outside mido's set_tempo data range 0..16777215 (negative tempos included)
raises mido's ValueError while the tempo message is appended. -/
theorem C8_no_timing_validation (chords : List (List (List Char))) (dur : ℚ)
    (tempo : Int) (pss : List (List Int))
    (hres : mapExcept (mapExcept midoNote) chords = .ok pss) :
    (0 ≤ dur → 0 < tempo → tempo ≤ 16777215 →
      create_midi chords dur tempo =
        .ok (seqTrack tempo (ticksPerChord 480 dur tempo) pss)) ∧
    create_midi chords dur 0 = .error .zeroDivision ∧
    (tempo < 0 ∨ 16777215 < tempo →
      create_midi chords dur tempo = .error .tempoRange) := by
  refine ⟨fun _ ht0 ht1 => create_midi_ok chords pss dur tempo ht0 ht1 hres,
    ?_, fun hr => ?_⟩
  · rw [create_midi, if_neg (by decide), if_pos rfl]
  · rw [create_midi, if_pos hr]

/-- C8 witness: the progression [[C4]] resolves; with the non-positive
duration 0 and tempo 500000 it produces a full track (no
InvalidTimingConfig), with tempo 0 it fails with ZeroDivisionError, and
with the negative tempo -500000 it fails with mido's set_tempo
ValueError. -/
theorem C8_no_timing_validation_witness :
    mapExcept (mapExcept midoNote) [[['C', '4']]] = .ok [[60]] ∧
    create_midi [[['C', '4']]] 0 500000 =
      .ok (seqTrack 500000 (ticksPerChord 480 0 500000) [[60]]) ∧
    create_midi [[['C', '4']]] 0 0 = .error .zeroDivision ∧
    create_midi [[['C', '4']]] 0 (-500000) = .error .tempoRange :=
  ⟨by decide,
    (C8_no_timing_validation [[['C', '4']]] 0 500000 [[60]]
      (by decide)).1 (by norm_num) (by decide) (by decide),
    (C8_no_timing_validation [[['C', '4']]] 0 500000 [[60]]
      (by decide)).2.1,
    (C8_no_timing_validation [[['C', '4']]] 0 (-500000) [[60]]
      (by decide)).2.2 (by decide)⟩

/-- C9 counterexample: two successive calls with identical arguments on the
shared state: the second call's state still holds the first call's full
track, and the tracks accumulate — the events of one call do flow into the
state visible to the next. -/
theorem C9_accumulation_cex :
    create_midi_cg [[['C', '4']]] 2 500000
        (create_midi_cg [[['C', '4']]] 2 500000 []).1 =
      ([[Msg.setTempo 500000, Msg.noteOn 60 64 0, Msg.noteOff 0 0 1920,
          Msg.noteOff 60 64 0],
        [Msg.setTempo 500000, Msg.noteOn 60 64 0, Msg.noteOff 0 0 1920,
          Msg.noteOff 60 64 0]], none) := by
  simp only [create_midi_cg, ticksPerChord_2s]
  decide

/-- C9 (amended): the chord_generator sequencer is deterministic in its
arguments — the appended track and the reported error are those of the call
on the empty state — but it mutates the shared `WORKING_MIDI` state: the
prior tracks persist as a prefix and each call appends to them. -/
theorem C9_deterministic_but_stateful (chords : List (List (List Char)))
    (dur : ℚ) (tempo : Int) (st : List (List Msg)) :
    create_midi_cg chords dur tempo st =
      (st ++ (create_midi_cg chords dur tempo []).1,
       (create_midi_cg chords dur tempo []).2) := by
  by_cases hr : tempo < 0 ∨ 16777215 < tempo
  · rw [create_midi_cg, if_pos hr, create_midi_cg, if_pos hr]
    simp
  · by_cases ht : tempo = 0
    · rw [create_midi_cg, if_neg hr, if_pos ht, create_midi_cg, if_neg hr,
        if_pos ht]
      simp
    · rw [create_midi_cg, if_neg hr, if_neg ht, create_midi_cg, if_neg hr,
        if_neg ht]
      simp

example : note_to_midi ['C', '4'] = .ok 60 := by decide
example : note_to_midi ['D', '#', '4'] = .ok 63 := by decide
example : note_to_midi ['B', 'b', '3'] = .ok 58 := by decide
example : note_to_midi ['C', 'b', '4'] = .ok 71 := by decide
example : note_to_midi [' ', 'c', '#', '-', '1', ' '] = .ok 1 := by decide
example : note_to_midi [] = .error .invalidNote := by decide
example : note_to_midi ['H', '4'] = .error .invalidNote := by decide
example : note_to_midi ['C'] = .error .invalidNote := by decide
example : note_to_midi ['C', 'x'] = .error .invalidOctave := by decide
example : note_to_midi ['H', 'b', '4'] = .error .invalidLetter := by decide
example : processChords 1920 [Msg.setTempo 500000] [[['C', '4']], [['X', '4']]] =
    ([Msg.setTempo 500000, Msg.noteOn 60 64 0, Msg.noteOff 0 0 1920,
      Msg.noteOff 60 64 0], some Err.invalidNote) := by decide
